import Mathlib

/-!
# Verification of the Tidalwav album-submission server

A shallow embedding, in Lean 4, of the Express server in `server.js`
(album submission ingestion, JSON record store, admin review workflow,
and zip archive export), together with theorems settling the testable
properties of its specification.

Modelling conventions:
* JSON documents are modelled by an AST (`Json`); `JSON.parse` /
  `JSON.stringify` are modelled at the AST level, so the record-store
  file holds either a `Json` value, is missing, or is corrupt
  (unparseable text).
* The result of `JSON.parse(req.body.tracks || '[]')` at the trust
  boundary is modelled by `TracksField`: the parse throws
  (`unparseable`), yields a non-array value (`nonList`, on which the
  subsequent `tracks.map` throws a `TypeError` caught by the outer
  `try`), or yields an array of track-metadata objects (`list`).
* `multer`'s disk storage writes every uploaded file (cover and audio)
  into `UPLOADS_DIR/<subId>/<originalname>` while the middleware parses
  the multipart body, i.e. before the route handler body runs; the
  handler model therefore computes the list of written file paths
  unconditionally, before inspecting the metadata.
* Identifiers (`uuidv4()`) and timestamps (`new Date().toISOString()`)
  are impure; they enter the model as explicit parameters.
-/

/-- JSON values, at the abstraction level of `JSON.parse`'s output.
Numbers are integers here: every number this server stores
(`numSongs`) is produced by `parseInt`. -/
inductive Json where
  | null : Json
  | bool (b : Bool) : Json
  | num (n : Int) : Json
  | str (s : String) : Json
  | arr (xs : List Json) : Json
  | obj (fields : List (String × Json)) : Json
deriving Repr, Inhabited

/-- Review status of a submission: `'pending' | 'approved' | 'rejected'`. -/
inductive Status where
  | pending
  | approved
  | rejected
deriving Repr, DecidableEq

/-- The declared metadata of one track, as parsed from the `tracks`
JSON form field (`title`, `featured`, `explicit`, and the `fileName`
used for upload matching); `none` models an absent JS property. -/
structure TrackMeta where
  title : Option String
  featured : Option String
  explicit : Option Bool
  fileName : Option String
deriving Repr, DecidableEq

/-- A stored track record: the declared metadata spread together with
the matching result, `{ ...t, file, originalFileName }`. -/
structure TrackRec where
  title : Option String
  featured : Option String
  explicit : Option Bool
  fileName : Option String
  file : Option String
  originalFileName : Option String
deriving Repr, DecidableEq

/-- A stored Submission record, as assembled by the `POST /submit`
handler. -/
structure Submission where
  id : String
  albumName : String
  releaseDate : String
  platforms : List String
  numSongs : Int
  cover : Option String
  tracks : List TrackRec
  createdAt : String
  status : Status
  adminNote : Option String
deriving Repr, DecidableEq

/-- One uploaded file as multer presents it: its client-supplied
original filename. Its stored path is determined by the submission id
and this name (`diskStorage` preserves the original name). -/
structure Upload where
  originalname : String
deriving Repr, DecidableEq

/-- Model of `path.relative(UPLOADS_DIR, path.join(UPLOADS_DIR, subId, name))`:
the relative path under the uploads root at which an upload named
`name` for submission `subId` is stored. -/
def relPath (subId name : String) : String :=
  subId ++ "/" ++ name

/-- Outcome of `JSON.parse(req.body.tracks || '[]')` followed by the
array check implicit in `tracks.map`. An absent `tracks` field parses
as `'[]'`, i.e. `list []`. -/
inductive TracksField where
  | unparseable
  | nonList
  | list (ts : List TrackMeta)
deriving Repr, DecidableEq

/-- A `POST /submit` request: the textual form fields (absent fields
modelled as `none`), the already-parsed `tracks` field, the optional
cover upload and the `trackFiles` uploads in request order. -/
structure SubmitReq where
  albumName : Option String
  releaseDate : Option String
  platforms : Option String
  numSongs : Option String
  tracksField : TracksField
  cover : Option Upload
  trackFiles : List Upload
deriving Repr

/-- The HTTP outcome of `POST /submit`: `200 {ok:true,id}`,
`400 {error:'Invalid tracks metadata'}`, or `500` from the outer
`catch`. -/
inductive SubmitOutcome where
  | ok (id : String)
  | invalid
  | internal
deriving Repr, DecidableEq

/-- The value of digit characters read in base 10 (helper for
`jsParseInt`). -/
def digitsToNat (cs : List Char) : Nat :=
  cs.foldl (fun a c => a * 10 + (c.toNat - 48)) 0

/-- JavaScript `parseInt(s, 10)`: skip leading whitespace, read an
optional sign and then the longest digit prefix; `none` models `NaN`
(no digits found). Fractional or trailing garbage is ignored, exactly
as `parseInt` ignores it. -/
def jsParseInt (s : String) : Option Int :=
  match s.data.dropWhile (fun c => c.isWhitespace) with
  | '-' :: rest =>
    let ds := rest.takeWhile (fun c => c.isDigit)
    if ds.isEmpty then none else some (-(digitsToNat ds : Int))
  | '+' :: rest =>
    let ds := rest.takeWhile (fun c => c.isDigit)
    if ds.isEmpty then none else some (digitsToNat ds)
  | cs =>
    let ds := cs.takeWhile (fun c => c.isDigit)
    if ds.isEmpty then none else some (digitsToNat ds)

/-- Model of `parseInt(req.body.numSongs || '0', 10) || 0`: an absent or empty
field falls back to `'0'`, and a `NaN` parse (and `-0`) falls back
to `0`. -/
def numSongsOf (field : Option String) : Int :=
  let s := match field with
    | none => "0"
    | some v => if v = "" then "0" else v
  match jsParseInt s with
  | none => 0
  | some n => n

/-- Model of `(req.body.platforms || '').split(',').map(s => s.trim()).filter(Boolean)`. -/
def platformsOf (field : Option String) : List String :=
  (((field.getD "").splitOn ",").map (fun s => s.trim)).filter (fun s => s != "")

/-- The upload a track matches by name:
`audioFiles.find(f => f.originalname === (t.fileName || ''))`. -/
def nameMatch (audioFiles : List Upload) (t : TrackMeta) : Option Upload :=
  audioFiles.find? (fun f => f.originalname == t.fileName.getD "")

/-- The track record built for the declared track `t` sitting at
(0-based) position `idx`: name match first, then positional fallback
`audioFiles[idx]`, else no file. -/
def buildTrack (subId : String) (audioFiles : List Upload) (t : TrackMeta) (idx : Nat) :
    TrackRec :=
  match nameMatch audioFiles t with
  | some matched =>
    ⟨t.title, t.featured, t.explicit, t.fileName,
      some (relPath subId matched.originalname), some matched.originalname⟩
  | none =>
    match audioFiles.get? idx with
    | some fallback =>
      ⟨t.title, t.featured, t.explicit, t.fileName,
        some (relPath subId fallback.originalname), some fallback.originalname⟩
    | none => ⟨t.title, t.featured, t.explicit, t.fileName, none, none⟩

/-- Model of `tracks.map((t, idx) => ...)` with the running index made
explicit. -/
def tracksWithFilesAux (subId : String) (audioFiles : List Upload) :
    List TrackMeta → Nat → List TrackRec
  | [], _ => []
  | t :: ts, idx => buildTrack subId audioFiles t idx :: tracksWithFilesAux subId audioFiles ts (idx + 1)

/-- The `tracksWithFiles` mapping of the submit handler. -/
def tracksWithFiles (subId : String) (audioFiles : List Upload) (tracks : List TrackMeta) :
    List TrackRec :=
  tracksWithFilesAux subId audioFiles tracks 0

/-- The disk paths multer's storage engine has written by the time the
route handler body runs: the cover upload (field `cover`) and every
`trackFiles` upload, each under `<subId>/<originalname>`. -/
def multerFiles (subId : String) (req : SubmitReq) : List String :=
  (req.cover.toList ++ req.trackFiles).map (fun f => relPath subId f.originalname)

/-- The `POST /submit` pipeline: multer has already written the
uploaded files; the handler then parses the form fields, validates the
`tracks` JSON, assembles the Submission and appends it to the store.
Returns the HTTP outcome, the record store after the request, and the
list of file paths written during the request. -/
def handleSubmit (subId createdAt : String) (req : SubmitReq) (db : List Submission) :
    SubmitOutcome × List Submission × List String :=
  let written := multerFiles subId req
  match req.tracksField with
  | .unparseable => (.invalid, db, written)
  | .nonList => (.internal, db, written)
  | .list ts =>
    let sub : Submission :=
      { id := subId
        albumName := (req.albumName.getD "").trim
        releaseDate := req.releaseDate.getD ""
        platforms := platformsOf req.platforms
        numSongs := numSongsOf req.numSongs
        cover := req.cover.map (fun f => relPath subId f.originalname)
        tracks := tracksWithFiles subId req.trackFiles ts
        createdAt := createdAt
        status := .pending
        adminNote := none }
    (.ok subId, db ++ [sub], written)

/-! ## JSON serialization of records (`JSON.stringify` at AST level) -/

/-- Encode an optional string the way the handler stores it: a JS
`null` when absent. -/
def optStrJson : Option String → Json
  | none => .null
  | some s => .str s

/-- Encode an optional boolean, `null` when absent. -/
def optBoolJson : Option Bool → Json
  | none => .null
  | some b => .bool b

/-- The wire form of a status value. -/
def statusToStr : Status → String
  | .pending => "pending"
  | .approved => "approved"
  | .rejected => "rejected"

/-- Parse a wire status string back. -/
def statusOfStr : String → Option Status
  | "pending" => some .pending
  | "approved" => some .approved
  | "rejected" => some .rejected
  | _ => none

/-- JSON object serialization of a stored track record. -/
def trackToJson (t : TrackRec) : Json :=
  .obj [("title", optStrJson t.title),
        ("featured", optStrJson t.featured),
        ("explicit", optBoolJson t.explicit),
        ("fileName", optStrJson t.fileName),
        ("file", optStrJson t.file),
        ("originalFileName", optStrJson t.originalFileName)]

/-- JSON object serialization of a Submission record, field for field
as the handler assembles it. -/
def subToJson (s : Submission) : Json :=
  .obj [("id", .str s.id),
        ("albumName", .str s.albumName),
        ("releaseDate", .str s.releaseDate),
        ("platforms", .arr (s.platforms.map Json.str)),
        ("numSongs", .num s.numSongs),
        ("cover", optStrJson s.cover),
        ("tracks", .arr (s.tracks.map trackToJson)),
        ("createdAt", .str s.createdAt),
        ("status", .str (statusToStr s.status)),
        ("adminNote", optStrJson s.adminNote)]

/-- Look a key up in a JSON object's field list (first binding wins,
as in a JS object literal). -/
def jGet (fields : List (String × Json)) (k : String) : Option Json :=
  (fields.find? (fun kv => kv.1 == k)).map (fun kv => kv.2)

/-- Decode an optional string (stored as `null` or a string). -/
def optStrOfJson : Option Json → Option (Option String)
  | some .null => some none
  | some (.str s) => some (some s)
  | _ => none

/-- Decode an optional boolean (stored as `null` or a boolean). -/
def optBoolOfJson : Option Json → Option (Option Bool)
  | some .null => some none
  | some (.bool b) => some (some b)
  | _ => none

/-- Decode a plain string. -/
def strOfJson : Option Json → Option String
  | some (.str s) => some s
  | _ => none

/-- Decode an integer number. -/
def numOfJson : Option Json → Option Int
  | some (.num n) => some n
  | _ => none

/-- All-or-nothing elementwise decoding of a JSON list. -/
def mapOption (g : Json → Option α) : List Json → Option (List α)
  | [] => some []
  | x :: xs =>
    match g x, mapOption g xs with
    | some a, some l => some (a :: l)
    | _, _ => none

/-- Decode a list of strings. -/
def strListOfJson : Option Json → Option (List String)
  | some (.arr xs) =>
    mapOption (fun j => match j with | .str s => some s | _ => none) xs
  | _ => none

/-- Decode a stored track record. -/
def trackOfJson : Json → Option TrackRec
  | .obj fs =>
    match optStrOfJson (jGet fs "title"), optStrOfJson (jGet fs "featured"),
          optBoolOfJson (jGet fs "explicit"), optStrOfJson (jGet fs "fileName"),
          optStrOfJson (jGet fs "file"), optStrOfJson (jGet fs "originalFileName") with
    | some a, some b, some c, some d, some e, some f => some ⟨a, b, c, d, e, f⟩
    | _, _, _, _, _, _ => none
  | _ => none

/-- Decode a Submission record. -/
def subOfJson : Json → Option Submission
  | .obj fs =>
    match strOfJson (jGet fs "id"), strOfJson (jGet fs "albumName"),
          strOfJson (jGet fs "releaseDate"), strListOfJson (jGet fs "platforms"),
          numOfJson (jGet fs "numSongs"), optStrOfJson (jGet fs "cover"),
          (match jGet fs "tracks" with
           | some (.arr xs) => mapOption trackOfJson xs
           | _ => none),
          strOfJson (jGet fs "createdAt"),
          (match jGet fs "status" with
           | some (.str st) => statusOfStr st
           | _ => none),
          optStrOfJson (jGet fs "adminNote") with
    | some i, some a, some r, some p, some n, some c, some t, some ca, some st, some an =>
      some ⟨i, a, r, p, n, c, t, ca, st, an⟩
    | _, _, _, _, _, _, _, _, _, _ => none
  | _ => none

/-! ## Record store (`readDB` / `writeDB`) -/

/-- The state of the backing file `data/submissions.json`: missing
(`readFileSync` throws), present but not valid JSON (`JSON.parse`
throws), or parseable with the given JSON content. -/
inductive DBFile where
  | missing
  | corrupt
  | stored (j : Json)

/-- Model of `readDB()`: parse the backing file, degrading any read or parse
failure to the empty array. The parsed value is returned as-is (no
shape validation). -/
def readDB : DBFile → Json
  | .missing => .arr []
  | .corrupt => .arr []
  | .stored j => j

/-- The JSON document `writeDB(data)` serializes into the backing
file for a record list `data`. -/
def writeDB (data : List Submission) : Json :=
  .arr (data.map subToJson)

/-- Interpret raw record-store content as a record list (the shape
every consumer of `readDB` assumes). -/
def decodeDB : Json → Option (List Submission)
  | .arr xs => mapOption subOfJson xs
  | _ => none

/-! ## Review workflow (approve / reject / login) -/

/-- Model of `x || null` on an optional JSON note: an absent or empty-string
note is stored as `null`. -/
def jsOrNull : Option String → Option String
  | none => none
  | some s => if s = "" then none else some s

/-- Update the first element satisfying `p` (what `db.find` followed
by in-place mutation and `writeDB(db)` does); `none` when no element
matches (the 404 path, which does not write). -/
def updateFirst (p : α → Bool) (f : α → α) : List α → Option (List α)
  | [] => none
  | x :: xs =>
    if p x then some (f x :: xs)
    else (updateFirst p f xs).map (fun ys => x :: ys)

/-- The mutation an approve/reject handler performs on the found
record: overwrite `status` and `adminNote`, touch nothing else. -/
def setReview (st : Status) (note : Option String) (s : Submission) : Submission :=
  { s with status := st, adminNote := jsOrNull note }

/-- Shared body of the two review handlers: find the record by id,
overwrite its status and note, persist; 404 (`none`) if absent. -/
def transition (st : Status) (db : List Submission) (id : String) (note : Option String) :
    Option (List Submission) :=
  updateFirst (fun s => s.id == id) (setReview st note) db

/-- Handler of `POST /admin/api/submissions/:id/approve`. -/
def approve (db : List Submission) (id : String) (note : Option String) :
    Option (List Submission) :=
  transition .approved db id note

/-- Handler of `POST /admin/api/submissions/:id/reject`. -/
def reject (db : List Submission) (id : String) (note : Option String) :
    Option (List Submission) :=
  transition .rejected db id note

/-- Model of `process.env.ADMIN_PASS || 'adminpass'`. -/
def adminPassOf (env : Option String) : String :=
  match env with
  | none => "adminpass"
  | some s => if s = "" then "adminpass" else s

/-- The session state relevant to this server: the `isAdmin` flag. -/
structure Sess where
  isAdmin : Bool
deriving Repr, DecidableEq

/-- An entry of the exported zip archive: either appended literal
data (the metadata document) or a file referenced by its stored
relative path. -/
inductive EntrySource where
  | data (j : Json)
  | file (relpath : String)
deriving Repr

/-- A named archive entry. -/
structure ArchiveEntry where
  name : String
  src : EntrySource
deriving Repr

/-- An HTTP response, at the granularity the claims need. -/
inductive Response where
  | redirect (loc : String)
  | json (j : Json)
  | jsonError (status : Nat) (msg : String)
  | textError (status : Nat) (msg : String)
  | archive (downloadName : String) (entries : List ArchiveEntry)
deriving Repr

/-- The `requireAdmin` middleware: pass the request through when the
session carries the admin flag, otherwise redirect to the login
page. -/
def requireAdmin (sess : Sess) (handler : Response) : Response :=
  if sess.isAdmin then handler else .redirect "/admin/login"

/-- Handler of `POST /admin/login`: exact string comparison of the submitted
password (`req.body.password || ''`) against the configured value;
marks the session and redirects on match. -/
def loginPost (env : Option String) (password : Option String) (sess : Sess) :
    Response × Sess :=
  if password.getD "" == adminPassOf env then
    (.redirect "/admin/dashboard", { sess with isAdmin := true })
  else
    (.redirect "/admin/login?err=1", sess)

/-- Handler of `GET /admin/api/submissions` (behind `requireAdmin`). -/
def listSubmissionsEP (sess : Sess) (db : List Submission) : Response :=
  requireAdmin sess (.json (writeDB db))

/-- Handler of `GET /admin/api/submissions/:id` (behind `requireAdmin`). -/
def getSubmissionEP (sess : Sess) (db : List Submission) (id : String) : Response :=
  requireAdmin sess
    (match db.find? (fun s => s.id == id) with
     | none => .jsonError 404 "Not found"
     | some sub => .json (subToJson sub))

/-! ## Archive export (`GET /admin/download/:id`) -/

/-- The characters of the final path component: scan the characters,
restarting the accumulator after each slash. -/
def basenameChars : List Char → List Char → List Char
  | cur, [] => cur.reverse
  | cur, c :: cs => if c = '/' then basenameChars [] cs else basenameChars (c :: cur) cs

/-- Model of `path.basename`: the final path component. -/
def basename (p : String) : String :=
  String.mk (basenameChars [] p.data)

/-- The characters after the last `'.'` of a list, if any. -/
def afterLastDot : List Char → Option (List Char)
  | [] => none
  | c :: cs =>
    match afterLastDot cs with
    | some r => some r
    | none => if c = '.' then some cs else none

/-- Model of `path.extname`: the extension of the basename including the dot,
`""` when the basename has no dot past its first character. -/
def extname (p : String) : String :=
  match (basename p).data with
  | [] => ""
  | _ :: rest =>
    match afterLastDot rest with
    | some suffix => "." ++ String.mk suffix
    | none => ""

/-- Sanitize one character of the download filename:
`replace(/[^a-z0-9_\-\.]/gi, '_')`. -/
def sanitizeChar (c : Char) : Char :=
  if c.isAlphanum || c = '_' || c = '-' || c = '.' then c else '_'

/-- The content-disposition filename: `(sub.albumName || sub.id)`
sanitized, with `.zip` appended. -/
def zipName (sub : Submission) : String :=
  String.mk (((if sub.albumName = "" then sub.id else sub.albumName)).data.map sanitizeChar)
    ++ ".zip"

/-- The archive name of a track's audio entry:
`t.originalFileName || ('track-' + (idx+1) + extname(full))`. -/
def entryName (t : TrackRec) (p : String) (idx : Nat) : String :=
  match t.originalFileName with
  | some s => if s = "" then "track-" ++ toString (idx + 1) ++ extname p else s
  | none => "track-" ++ toString (idx + 1) ++ extname p

/-- The audio entries contributed by `sub.tracks.forEach((t, idx) =>
...)`: one per track whose `file` is truthy (`if (t.file)` skips both
`null` and the empty string) and resolves on disk. -/
def trackEntriesAux (fileExists : String → Bool) :
    List TrackRec → Nat → List ArchiveEntry
  | [], _ => []
  | t :: ts, idx =>
    (match t.file with
     | some p =>
       if p = "" then []
       else if fileExists p then [⟨entryName t p idx, .file p⟩] else []
     | none => []) ++ trackEntriesAux fileExists ts (idx + 1)

/-- All entries appended to the archive for submission `sub`:
`metadata.json` first, then the cover (if truthy — `if (sub.cover)`
skips both `null` and the empty string — and resolvable) under its
basename, then the audio entries. `fileExists` is `fs.existsSync` on
paths relative to the uploads root. -/
def archiveEntries (fileExists : String → Bool) (sub : Submission) : List ArchiveEntry :=
  ⟨"metadata.json", .data (subToJson sub)⟩ ::
  ((match sub.cover with
    | some c =>
      if c = "" then []
      else if fileExists c then [⟨basename c, .file c⟩] else []
    | none => []) ++
   trackEntriesAux fileExists sub.tracks 0)

/-- The `GET /admin/download/:id` handler body: 404 for an unknown id,
404 `'Files missing'` when the submission's directory is gone,
otherwise the streamed archive. `dirExists` is `fs.existsSync` on the
submission directory (named by the submission id). -/
def exportSub (db : List Submission) (dirExists fileExists : String → Bool) (id : String) :
    Response :=
  match db.find? (fun s => s.id == id) with
  | none => .textError 404 "Not found"
  | some sub =>
    if dirExists sub.id then
      .archive (zipName sub) (archiveEntries fileExists sub)
    else
      .textError 404 "Files missing"

/-- Handler of `GET /admin/download/:id` with its `requireAdmin` guard. -/
def downloadEP (sess : Sess) (db : List Submission) (dirExists fileExists : String → Bool)
    (id : String) : Response :=
  requireAdmin sess (exportSub db dirExists fileExists id)

/-! ## Helper lemmas -/

/-- Encoding then decoding an optional string is lossless. -/
theorem optStrOfJson_enc (x : Option String) :
    optStrOfJson (some (optStrJson x)) = some x := by
  cases x <;> rfl

/-- Encoding then decoding an optional boolean is lossless. -/
theorem optBoolOfJson_enc (x : Option Bool) :
    optBoolOfJson (some (optBoolJson x)) = some x := by
  cases x <;> rfl

/-- Encoding then decoding a status is lossless. -/
theorem statusOfStr_enc (st : Status) : statusOfStr (statusToStr st) = some st := by
  cases st <;> rfl

/-- Elementwise decoding inverts elementwise encoding. -/
theorem mapOption_map (f : α → Json) (g : Json → Option α) (h : ∀ a, g (f a) = some a) :
    ∀ l : List α, mapOption g (l.map f) = some l := by
  intro l
  induction l with
  | nil => rfl
  | cons a l ih =>
    show (match g (f a), mapOption g (l.map f) with
          | some a, some l => some (a :: l)
          | _, _ => none) = some (a :: l)
    rw [h a, ih]

/-- Encoding then decoding a track record is lossless. -/
theorem trackOfJson_enc (t : TrackRec) : trackOfJson (trackToJson t) = some t := by
  obtain ⟨a, b, c, d, e, f⟩ := t
  show (match optStrOfJson (some (optStrJson a)), optStrOfJson (some (optStrJson b)),
              optBoolOfJson (some (optBoolJson c)), optStrOfJson (some (optStrJson d)),
              optStrOfJson (some (optStrJson e)), optStrOfJson (some (optStrJson f)) with
        | some a, some b, some c, some d, some e, some f =>
          some (⟨a, b, c, d, e, f⟩ : TrackRec)
        | _, _, _, _, _, _ => none) = some ⟨a, b, c, d, e, f⟩
  rw [optStrOfJson_enc, optStrOfJson_enc, optBoolOfJson_enc, optStrOfJson_enc,
      optStrOfJson_enc, optStrOfJson_enc]

/-- Encoding then decoding a Submission record is lossless. -/
theorem subOfJson_enc (s : Submission) : subOfJson (subToJson s) = some s := by
  obtain ⟨i, a, r, p, n, c, t, ca, st, an⟩ := s
  show (match some i, some a, some r,
              mapOption (fun j => match j with | .str s => some s | _ => none)
                (p.map Json.str),
              some n, optStrOfJson (some (optStrJson c)),
              mapOption trackOfJson (t.map trackToJson),
              some ca, statusOfStr (statusToStr st),
              optStrOfJson (some (optStrJson an)) with
        | some i, some a, some r, some p, some n, some c, some t, some ca, some st, some an =>
          some (⟨i, a, r, p, n, c, t, ca, st, an⟩ : Submission)
        | _, _, _, _, _, _, _, _, _, _ => none) = some ⟨i, a, r, p, n, c, t, ca, st, an⟩
  rw [mapOption_map Json.str (fun j => match j with | .str s => some s | _ => none)
        (fun x => rfl) p,
      optStrOfJson_enc, mapOption_map trackToJson trackOfJson trackOfJson_enc t,
      statusOfStr_enc, optStrOfJson_enc]

/-- Serializing a record list and reading it back is lossless. -/
theorem decodeDB_writeDB (l : List Submission) : decodeDB (writeDB l) = some l :=
  mapOption_map subToJson subOfJson subOfJson_enc l

/-- Claim C7: for every well-formed record-store content, writing back
what was loaded reproduces an observably identical record list: the
written document is what a subsequent read returns, and it decodes to
the same records in the same order. -/
theorem claim7_roundtrip (f : DBFile) (l : List Submission)
    (_h : decodeDB (readDB f) = some l) :
    readDB (.stored (writeDB l)) = writeDB l ∧ decodeDB (writeDB l) = some l :=
  ⟨rfl, decodeDB_writeDB l⟩

/-- Witness for `claim7_roundtrip` at a concrete one-record store. -/
theorem claim7_roundtrip_witness :
    decodeDB (writeDB [⟨"x", "Al", "2020", ["sp"], 3, some "x/c.png",
      [⟨some "A", none, some true, some "a.mp3", some "x/a.mp3", some "a.mp3"⟩],
      "t", .pending, none⟩]) =
      some [⟨"x", "Al", "2020", ["sp"], 3, some "x/c.png",
        [⟨some "A", none, some true, some "a.mp3", some "x/a.mp3", some "a.mp3"⟩],
        "t", .pending, none⟩] :=
  (claim7_roundtrip (.stored (writeDB [⟨"x", "Al", "2020", ["sp"], 3, some "x/c.png",
      [⟨some "A", none, some true, some "a.mp3", some "x/a.mp3", some "a.mp3"⟩],
      "t", .pending, none⟩]))
    [⟨"x", "Al", "2020", ["sp"], 3, some "x/c.png",
      [⟨some "A", none, some true, some "a.mp3", some "x/a.mp3", some "a.mp3"⟩],
      "t", .pending, none⟩]
    (decodeDB_writeDB _)).2

/-- Claim C8: a missing or corrupt backing store degrades to the empty
sequence (no error propagates), and a parseable store yields the stored
sequence unchanged and in order. -/
theorem claim8_read_degrades :
    readDB .missing = .arr [] ∧ readDB .corrupt = .arr [] ∧
    decodeDB (readDB .missing) = some [] ∧ decodeDB (readDB .corrupt) = some [] ∧
    (∀ j, readDB (.stored j) = j) ∧
    (∀ l : List Submission, decodeDB (readDB (.stored (writeDB l))) = some l) :=
  ⟨rfl, rfl, rfl, rfl, fun _ => rfl, fun l => decodeDB_writeDB l⟩

/-- Length is preserved by the track-to-file mapping. -/
theorem tracksWithFilesAux_length (subId : String) (A : List Upload) :
    ∀ (ts : List TrackMeta) (k : Nat),
      (tracksWithFilesAux subId A ts k).length = ts.length := by
  intro ts
  induction ts with
  | nil => intro k; rfl
  | cons t ts ih => intro k; simp [tracksWithFilesAux, ih (k + 1)]

/-- Pointwise description of the track-to-file mapping. -/
theorem tracksWithFilesAux_get? (subId : String) (A : List Upload) :
    ∀ (ts : List TrackMeta) (k j : Nat),
      (tracksWithFilesAux subId A ts k).get? j =
        (ts.get? j).map (fun t => buildTrack subId A t (k + j)) := by
  intro ts
  induction ts with
  | nil => intro k j; simp [tracksWithFilesAux]
  | cons t ts ih =>
    intro k j
    cases j with
    | zero => simp [tracksWithFilesAux]
    | succ j =>
      have ih2 := ih (k + 1) j
      have hkj : k + (j + 1) = (k + 1) + j := by omega
      simpa [tracksWithFilesAux, hkj] using ih2

/-- The uploads left over after name matching: those whose original
filename is claimed by no declared track. (Spec-side notion; the code
keeps no such list.) -/
def unmatchedUploads (audioFiles : List Upload) (tracks : List TrackMeta) : List Upload :=
  audioFiles.filter (fun f => !(tracks.any (fun t => t.fileName.getD "" == f.originalname)))

/-- Formalization of claim C1's matching discipline as stated by the
spec: a name-matched track references the named upload; a track with
no name match at position `i` receives the `i`-th upload of the
UNMATCHED-upload list, or nothing if none remains. -/
def specC1Matching (subId : String) (A : List Upload) (T : List TrackMeta) : Prop :=
  ∀ i t out, T.get? i = some t → (tracksWithFiles subId A T).get? i = some out →
    (∀ f, nameMatch A t = some f → out.file = some (relPath subId f.originalname)) ∧
    (nameMatch A t = none →
      out.file = ((unmatchedUploads A T).get? i).map (fun f => relPath subId f.originalname))

/-- Counterexample to claim C1 as stated: with declared tracks
`[fileName a.mp3, fileName c.mp3]` and uploads `[b.mp3, a.mp3]`, the
second track has no name match; the unmatched-upload list is
`[b.mp3]`, which has no entry at position 1, so the claim demands no
file — but the code falls back on the FULL upload list and hands the
second track `a.mp3`, which is already name-matched to the first
track. -/
theorem claim1_counterexample :
    ¬ specC1Matching "s" [⟨"b.mp3"⟩, ⟨"a.mp3"⟩]
        [⟨some "A", none, none, some "a.mp3"⟩, ⟨some "B", none, none, some "c.mp3"⟩] := by
  intro h
  have h1 := (h 1 ⟨some "B", none, none, some "c.mp3"⟩
    ⟨some "B", none, none, some "c.mp3", some "s/a.mp3", some "a.mp3"⟩ rfl rfl).2 rfl
  exact absurd h1 (by decide)

/-- The claim's matching discipline as the code actually implements
it (the amendment): the positional fallback indexes the FULL upload
list, not the unmatched-upload list. Also records that the declared
metadata is carried over unchanged. -/
def amendedC1Matching (subId : String) (A : List Upload) (T : List TrackMeta) : Prop :=
  ∀ i t out, T.get? i = some t → (tracksWithFiles subId A T).get? i = some out →
    out.title = t.title ∧ out.featured = t.featured ∧ out.explicit = t.explicit ∧
    out.fileName = t.fileName ∧
    (∀ f, nameMatch A t = some f →
      out.file = some (relPath subId f.originalname) ∧
      out.originalFileName = some f.originalname) ∧
    (nameMatch A t = none →
      out.file = (A.get? i).map (fun f => relPath subId f.originalname) ∧
      out.originalFileName = (A.get? i).map (fun f => f.originalname))

/-- Claim C1 (amended): a name-matched track references the named
upload regardless of upload order; a track with no name match at
position `i` receives the `i`-th upload of the full upload list, or no
file when the list is too short; and ingestion with zero audio uploads
and a declared track still succeeds, with that track's `file`
absent. -/
theorem claim1_matching :
    (∀ subId A T,
      (tracksWithFiles subId A T).length = T.length ∧ amendedC1Matching subId A T) ∧
    (∀ subId createdAt req db t,
      req.tracksField = .list [t] → req.trackFiles = [] →
      ∃ sub,
        handleSubmit subId createdAt req db =
          (.ok subId, db ++ [sub], multerFiles subId req) ∧
        sub.tracks = [⟨t.title, t.featured, t.explicit, t.fileName, none, none⟩]) := by
  constructor
  · intro subId A T
    refine ⟨tracksWithFilesAux_length subId A T 0, ?_⟩
    intro i t out hT hOut
    rw [tracksWithFiles, tracksWithFilesAux_get?, hT] at hOut
    simp only [Option.map_some', Option.some.injEq, Nat.zero_add] at hOut
    subst hOut
    unfold buildTrack
    cases hnm : nameMatch A t with
    | some f =>
      refine ⟨rfl, rfl, rfl, rfl, ?_, ?_⟩
      · intro g hg
        have hfg := Option.some.inj hg
        subst hfg
        exact ⟨rfl, rfl⟩
      · intro hn
        exact Option.noConfusion hn
    | none =>
      cases hA : A.get? i with
      | some fb =>
        refine ⟨rfl, rfl, rfl, rfl, ?_, ?_⟩
        · intro g hg
          exact Option.noConfusion hg
        · intro _
          exact ⟨rfl, rfl⟩
      | none =>
        refine ⟨rfl, rfl, rfl, rfl, ?_, ?_⟩
        · intro g hg
          exact Option.noConfusion hg
        · intro _
          exact ⟨rfl, rfl⟩
  · intro subId createdAt req db t hts htf
    refine ⟨{ id := subId
              albumName := (req.albumName.getD "").trim
              releaseDate := req.releaseDate.getD ""
              platforms := platformsOf req.platforms
              numSongs := numSongsOf req.numSongs
              cover := req.cover.map (fun f => relPath subId f.originalname)
              tracks := tracksWithFiles subId req.trackFiles [t]
              createdAt := createdAt
              status := .pending
              adminNote := none }, ?_, ?_⟩
    · simp [handleSubmit, hts]
    · rw [htf]
      exact rfl

/-- Witness for `claim1_matching` at concrete inputs: two declared
tracks, uploads `[b.mp3, a.mp3]`, and the zero-upload boundary
request. -/
theorem claim1_matching_witness :
    (tracksWithFiles "s" [⟨"b.mp3"⟩, ⟨"a.mp3"⟩]
      [⟨some "A", none, none, some "a.mp3"⟩, ⟨some "B", none, none, some "c.mp3"⟩]).length = 2 ∧
    ∃ sub,
      handleSubmit "w" "now"
        ⟨some "Solo", none, none, none, .list [⟨some "Only", none, none, none⟩], none, []⟩ [] =
        (.ok "w", [] ++ [sub], multerFiles "w"
          ⟨some "Solo", none, none, none, .list [⟨some "Only", none, none, none⟩], none, []⟩) ∧
      sub.tracks = [⟨some "Only", none, none, none, none, none⟩] := by
  constructor
  · exact (claim1_matching.1 "s" [⟨"b.mp3"⟩, ⟨"a.mp3"⟩]
      [⟨some "A", none, none, some "a.mp3"⟩, ⟨some "B", none, none, some "c.mp3"⟩]).1
  · exact claim1_matching.2 "w" "now"
      ⟨some "Solo", none, none, none, .list [⟨some "Only", none, none, none⟩], none, []⟩ []
      ⟨some "Only", none, none, none⟩ rfl rfl

/-! ## Claims C2, C3, C5: ingestion -/

/-- Claim C2: every valid ingestion (parseable track list) returns the
generated identifier and appends exactly one Submission with that id,
status pending, no admin note, and one stored track per declared
track, whatever `numSongs` says. -/
theorem claim2_ingest :
    ∀ subId createdAt req db ts, req.tracksField = .list ts →
    ∃ sub,
      handleSubmit subId createdAt req db = (.ok subId, db ++ [sub], multerFiles subId req) ∧
      sub.id = subId ∧ sub.status = .pending ∧ sub.adminNote = none ∧
      sub.tracks.length = ts.length ∧
      ((∀ s ∈ db, s.id ≠ subId) →
        (db ++ [sub]).countP (fun s => s.id == subId) = 1) := by
  intro subId createdAt req db ts hts
  refine ⟨{ id := subId
            albumName := (req.albumName.getD "").trim
            releaseDate := req.releaseDate.getD ""
            platforms := platformsOf req.platforms
            numSongs := numSongsOf req.numSongs
            cover := req.cover.map (fun f => relPath subId f.originalname)
            tracks := tracksWithFiles subId req.trackFiles ts
            createdAt := createdAt
            status := .pending
            adminNote := none }, ?_, rfl, rfl, rfl, ?_, ?_⟩
  · simp [handleSubmit, hts]
  · exact tracksWithFilesAux_length subId req.trackFiles ts 0
  · intro hfresh
    rw [List.countP_append]
    have h0 : db.countP (fun s => s.id == subId) = 0 := by
      rw [List.countP_eq_zero]
      intro a ha
      simpa using hfresh a ha
    rw [h0]
    simp [List.countP_cons]

/-- Witness for `claim2_ingest`: a concrete two-track request. -/
theorem claim2_ingest_witness :
    ∃ sub : Submission,
      handleSubmit "u" "now"
        ⟨some "LP", some "2024-01-01", some "spotify,apple", some "5",
         .list [⟨some "A", none, none, some "a.mp3"⟩, ⟨some "B", none, none, none⟩],
         some ⟨"cover.png"⟩, [⟨"a.mp3"⟩]⟩ [] =
        (.ok "u", [] ++ [sub], multerFiles "u"
          ⟨some "LP", some "2024-01-01", some "spotify,apple", some "5",
           .list [⟨some "A", none, none, some "a.mp3"⟩, ⟨some "B", none, none, none⟩],
           some ⟨"cover.png"⟩, [⟨"a.mp3"⟩]⟩) ∧
      sub.id = "u" ∧ sub.status = .pending ∧ sub.adminNote = none ∧
      sub.tracks.length = 2 ∧
      (∀ s ∈ ([] : List Submission), s.id ≠ "u") ∧
      ([] ++ [sub]).countP (fun s : Submission => s.id == "u") = 1 := by
  obtain ⟨sub, h1, h2, h3, h4, h5, h6⟩ := claim2_ingest "u" "now"
    ⟨some "LP", some "2024-01-01", some "spotify,apple", some "5",
     .list [⟨some "A", none, none, some "a.mp3"⟩, ⟨some "B", none, none, none⟩],
     some ⟨"cover.png"⟩, [⟨"a.mp3"⟩]⟩ []
    [⟨some "A", none, none, some "a.mp3"⟩, ⟨some "B", none, none, none⟩] rfl
  exact ⟨sub, h1, h2, h3, h4, h5, fun s hs => absurd hs (List.not_mem_nil s),
    h6 (fun s hs => absurd hs (List.not_mem_nil s))⟩

/-- Formalization of claim C3 as stated: a request whose tracks field
is not parseable as a list of objects is rejected with the 400
invalid-metadata response, with no record appended AND no uploaded
file written to disk. -/
def claim3Pred : Prop :=
  ∀ subId createdAt req db,
    req.tracksField = .unparseable ∨ req.tracksField = .nonList →
    handleSubmit subId createdAt req db = (.invalid, db, [])

/-- Counterexample to claim C3 as stated: a request whose tracks field
parses as JSON but not as a list, carrying one audio upload, yields
the 500 internal-error response (not the 400 invalid-metadata one),
and the upload has already been written to disk by the multer
middleware — the write is not aborted. -/
theorem claim3_counterexample :
    handleSubmit "i" "c" ⟨none, none, none, none, .nonList, none, [⟨"a.mp3"⟩]⟩ [] =
      (.internal, [], ["i/a.mp3"]) ∧ ¬ claim3Pred := by
  refine ⟨rfl, ?_⟩
  intro h
  have h1 := h "i" "c" ⟨none, none, none, none, .nonList, none, [⟨"a.mp3"⟩]⟩ []
    (Or.inr rfl)
  exact absurd h1 (by decide)

/-- Claim C3 (amended): a tracks field that is not parseable as JSON
is rejected with the 400 invalid-metadata error and a parseable
non-list one with the 500 internal error; in both cases no Submission
record is appended, but the uploaded files have already been written
to disk by the upload middleware before the metadata check. -/
theorem claim3_aborts :
    ∀ subId createdAt req db,
      (req.tracksField = .unparseable →
        handleSubmit subId createdAt req db = (.invalid, db, multerFiles subId req)) ∧
      (req.tracksField = .nonList →
        handleSubmit subId createdAt req db = (.internal, db, multerFiles subId req)) := by
  intro subId createdAt req db
  constructor
  · intro h
    simp [handleSubmit, h]
  · intro h
    simp [handleSubmit, h]

/-- Witness for `claim3_aborts`: unparseable metadata with one upload
gets a 400, an unchanged store, and the upload written on disk. -/
theorem claim3_aborts_witness :
    handleSubmit "i" "c" ⟨none, none, none, none, .unparseable, none, [⟨"a.mp3"⟩]⟩ [] =
      (.invalid, [], ["i/a.mp3"]) := by
  have h := (claim3_aborts "i" "c"
    ⟨none, none, none, none, .unparseable, none, [⟨"a.mp3"⟩]⟩ []).1 rfl
  exact h

/-- Formalization of claim C5's "stored verbatim": distinct submitted
`numSongs` field values would have to be stored distinguishably. -/
def claim5Verbatim : Prop :=
  ∀ v1 v2 : Option String, numSongsOf v1 = numSongsOf v2 → v1 = v2

/-- Counterexample to claim C5 as stated: the field is run through
`parseInt(..., 10) || 0`, so the submitted values `"abc"` and `"xyz"`
are both stored as `0` — not verbatim. -/
theorem claim5_counterexample :
    numSongsOf (some "abc") = numSongsOf (some "xyz") ∧
    (some "abc" : Option String) ≠ some "xyz" ∧ ¬ claim5Verbatim := by
  refine ⟨rfl, by decide, ?_⟩
  intro h
  have h1 := h (some "abc") (some "xyz") rfl
  exact absurd h1 (by decide)

/-! ## Review-workflow lemmas -/

/-- Every element of a successfully updated list comes from the same
position of the original list, either untouched or updated. -/
theorem updateFirst_get? (p : α → Bool) (f : α → α) :
    ∀ (l l2 : List α), updateFirst p f l = some l2 →
      ∀ j x2, l2.get? j = some x2 → ∃ x, l.get? j = some x ∧ (x2 = x ∨ x2 = f x) := by
  intro l
  induction l with
  | nil =>
    intro l2 h
    exact absurd h (by simp [updateFirst])
  | cons x xs ih =>
    intro l2 h j x2 h2
    by_cases hp : p x = true
    · rw [updateFirst, if_pos hp] at h
      have hl2 := Option.some.inj h
      subst hl2
      cases j with
      | zero =>
        have hx2 := Option.some.inj h2
        exact ⟨x, rfl, Or.inr hx2.symm⟩
      | succ j =>
        exact ⟨x2, h2, Or.inl rfl⟩
    · rw [updateFirst, if_neg hp] at h
      rcases Option.map_eq_some'.mp h with ⟨ys, hys, hl2⟩
      subst hl2
      cases j with
      | zero =>
        have hx2 := Option.some.inj h2
        exact ⟨x, rfl, Or.inl hx2.symm⟩
      | succ j =>
        exact ih ys hys j x2 h2

/-- Full characterization of a successful first-match update: some
position `i` holds a matching element `x`; the result is the original
list with `f x` written at `i` and nothing else changed. -/
theorem updateFirst_spec (p : α → Bool) (f : α → α) :
    ∀ (l l2 : List α), updateFirst p f l = some l2 →
      ∃ i x, l.get? i = some x ∧ p x = true ∧ l2 = l.set i (f x) ∧
        l2.get? i = some (f x) ∧ (∀ j, j ≠ i → l2.get? j = l.get? j) ∧
        l2.length = l.length := by
  intro l
  induction l with
  | nil =>
    intro l2 h
    exact absurd h (by simp [updateFirst])
  | cons x xs ih =>
    intro l2 h
    by_cases hp : p x = true
    · rw [updateFirst, if_pos hp] at h
      have hl2 := Option.some.inj h
      subst hl2
      refine ⟨0, x, rfl, hp, rfl, rfl, ?_, by simp⟩
      intro j hj
      cases j with
      | zero => exact absurd rfl hj
      | succ j => rfl
    · rw [updateFirst, if_neg hp] at h
      rcases Option.map_eq_some'.mp h with ⟨ys, hys, hl2⟩
      subst hl2
      rcases ih ys hys with ⟨i, y, hget, hpy, hset, hget2, hother, hlen⟩
      refine ⟨i + 1, y, hget, hpy, ?_, hget2, ?_, by simp [hlen]⟩
      · rw [hset]
        rfl
      · intro j hj
        cases j with
        | zero => rfl
        | succ j => exact hother j (fun hji => hj (by rw [hji]))

/-- A list containing a matching element is successfully updated. -/
theorem updateFirst_isSome (p : α → Bool) (f : α → α) :
    ∀ l : List α, (∃ x ∈ l, p x = true) → ∃ l2, updateFirst p f l = some l2 := by
  intro l
  induction l with
  | nil =>
    intro h
    rcases h with ⟨x, hx, _⟩
    exact absurd hx (List.not_mem_nil x)
  | cons x xs ih =>
    intro h
    by_cases hp : p x = true
    · exact ⟨f x :: xs, by rw [updateFirst, if_pos hp]⟩
    · rcases h with ⟨y, hy, hpy⟩
      rcases List.mem_cons.mp hy with hyx | hyxs
      · exact absurd (hyx ▸ hpy) hp
      · rcases ih ⟨y, hyxs, hpy⟩ with ⟨ys, hys⟩
        exact ⟨x :: ys, by rw [updateFirst, if_neg hp, hys]; rfl⟩

/-- A list with no matching element is not updated (the 404 path). -/
theorem updateFirst_none (p : α → Bool) (f : α → α) :
    ∀ l : List α, (∀ x ∈ l, p x = false) → updateFirst p f l = none := by
  intro l
  induction l with
  | nil => intro _; rfl
  | cons x xs ih =>
    intro h
    have hp : p x = false := h x (List.mem_cons_self x xs)
    rw [updateFirst, if_neg (by simp [hp]), ih (fun y hy => h y (List.mem_cons_of_mem x hy))]
    rfl

/-- Composing two review transitions on the same id: the second
overwrites the first entirely. -/
theorem transition_comp (st1 st2 : Status) (id : String) (n1 n2 : Option String) :
    ∀ (db db1 : List Submission), transition st1 db id n1 = some db1 →
      transition st2 db1 id n2 = transition st2 db id n2 := by
  intro db
  induction db with
  | nil =>
    intro db1 h
    exact absurd h (by simp [transition, updateFirst])
  | cons s rest ih =>
    intro db1 h
    by_cases hp : (s.id == id) = true
    · rw [transition, updateFirst, if_pos hp] at h
      have hdb1 := Option.some.inj h
      subst hdb1
      show transition st2 (setReview st1 n1 s :: rest) id n2 = _
      rw [transition, updateFirst, if_pos (show ((setReview st1 n1 s).id == id) = true from hp),
          transition, updateFirst, if_pos hp]
      rfl
    · rw [transition, updateFirst, if_neg hp] at h
      rcases Option.map_eq_some'.mp h with ⟨ys, hys, hdb1⟩
      subst hdb1
      show transition st2 (s :: ys) id n2 = transition st2 (s :: rest) id n2
      rw [transition, updateFirst, if_neg hp, transition, updateFirst, if_neg hp]
      have := ih ys hys
      rw [transition] at this
      rw [this]
      rfl

/-- Claim C5 (amended): `numSongs` is stored as the base-10 integer
parse of the submitted field (0 when missing, empty or unparseable);
ingestion succeeds regardless of how it relates to the declared track
count, and review transitions touch neither `numSongs` nor `tracks`,
so nothing ever reconciles the two. -/
theorem claim5_numSongs :
    (∀ subId createdAt req db ts, req.tracksField = .list ts →
      ∃ sub,
        handleSubmit subId createdAt req db = (.ok subId, db ++ [sub], multerFiles subId req) ∧
        sub.numSongs = numSongsOf req.numSongs ∧ sub.tracks.length = ts.length) ∧
    (∀ st db id note db2, transition st db id note = some db2 →
      ∀ j s2, db2.get? j = some s2 →
        ∃ s, db.get? j = some s ∧ s2.numSongs = s.numSongs ∧ s2.tracks = s.tracks) := by
  constructor
  · intro subId createdAt req db ts hts
    refine ⟨{ id := subId
              albumName := (req.albumName.getD "").trim
              releaseDate := req.releaseDate.getD ""
              platforms := platformsOf req.platforms
              numSongs := numSongsOf req.numSongs
              cover := req.cover.map (fun f => relPath subId f.originalname)
              tracks := tracksWithFiles subId req.trackFiles ts
              createdAt := createdAt
              status := .pending
              adminNote := none }, ?_, rfl, ?_⟩
    · simp [handleSubmit, hts]
    · exact tracksWithFilesAux_length subId req.trackFiles ts 0
  · intro st db id note db2 h j s2 h2
    rcases updateFirst_get? _ _ db db2 h j s2 h2 with ⟨s, hs, hcase⟩
    rcases hcase with hsame | hupd
    · exact ⟨s, hs, by rw [hsame], by rw [hsame]⟩
    · exact ⟨s, hs, by rw [hupd]; rfl, by rw [hupd]; rfl⟩

/-- Witness for `claim5_numSongs`: the divergent request declaring
`numSongs = "17"` with a single track still ingests, stores `17`, and
an approval afterwards preserves `numSongs` and the track list. -/
theorem claim5_numSongs_witness :
    (∃ sub : Submission,
      handleSubmit "u" "now"
        ⟨none, none, none, some "17", .list [⟨some "A", none, none, none⟩], none, []⟩ [] =
        (.ok "u", [] ++ [sub], multerFiles "u"
          ⟨none, none, none, some "17", .list [⟨some "A", none, none, none⟩], none, []⟩) ∧
      sub.numSongs = 17 ∧ sub.tracks.length = 1) ∧
    (∃ s : Submission,
      ([(⟨"x", "Al", "2020", [], 5, none, [], "t", .pending, none⟩ : Submission)]).get? 0 = some s ∧
      (⟨"x", "Al", "2020", [], 5, none, [], "t", .approved, some "ok"⟩ : Submission).numSongs = s.numSongs ∧
      (⟨"x", "Al", "2020", [], 5, none, [], "t", .approved, some "ok"⟩ : Submission).tracks = s.tracks) := by
  constructor
  · rcases claim5_numSongs.1 "u" "now"
      ⟨none, none, none, some "17", .list [⟨some "A", none, none, none⟩], none, []⟩ []
      [⟨some "A", none, none, none⟩] rfl with ⟨sub, h1, h2, h3⟩
    exact ⟨sub, h1, by rw [h2]; rfl, h3⟩
  · exact claim5_numSongs.2 .approved
      [⟨"x", "Al", "2020", [], 5, none, [], "t", .pending, none⟩] "x" (some "ok")
      [⟨"x", "Al", "2020", [], 5, none, [], "t", .approved, some "ok"⟩] rfl 0
      ⟨"x", "Al", "2020", [], 5, none, [], "t", .approved, some "ok"⟩ rfl

/-- Formalization of claim C6's note clause as stated: after approving
twice with notes `n1` then `n2`, the record's `adminNote` equals
`n2`. -/
def claim6NoteOverwrite : Prop :=
  ∀ (db : List Submission) (id : String) (n1 n2 : Option String) db1 db2 s,
    approve db id n1 = some db1 → approve db1 id n2 = some db2 →
    db2.find? (fun r => r.id == id) = some s → s.adminNote = n2

/-- Counterexample to claim C6 as stated: re-approving with the
empty-string note stores `null` (`req.body.note || null`), not the
note itself, so `adminNote` ends up absent instead of `""`. -/
theorem claim6_counterexample : ¬ claim6NoteOverwrite := by
  intro h
  have h1 := h [⟨"x", "Al", "2020", [], 5, none, [], "t", .pending, none⟩] "x"
    (some "first") (some "")
    [⟨"x", "Al", "2020", [], 5, none, [], "t", .approved, some "first"⟩]
    [⟨"x", "Al", "2020", [], 5, none, [], "t", .approved, none⟩]
    ⟨"x", "Al", "2020", [], 5, none, [], "t", .approved, none⟩ rfl rfl rfl
  exact absurd h1 (by decide)

/-- Claim C6 (amended): for an id present in the store, approving
twice succeeds both times whatever the prior status; the final record
has `status = approved` and `adminNote` equal to the second note when
it is a non-empty string and `null` when it is absent or empty (the
second note overwrites the first either way); approving an absent id
returns 404 and, since the store is only written on success, leaves it
unchanged. -/
theorem claim6_idempotent :
    (∀ (db : List Submission) (id : String) (n1 n2 : Option String),
      (∃ s ∈ db, s.id = id) →
      ∃ db1 db2, approve db id n1 = some db1 ∧ approve db1 id n2 = some db2 ∧
        ∃ i s, db.get? i = some s ∧ s.id = id ∧
          db2.get? i = some { s with status := .approved, adminNote := jsOrNull n2 } ∧
          db2 = db.set i { s with status := .approved, adminNote := jsOrNull n2 } ∧
          db2.length = db.length) ∧
    (∀ (db : List Submission) (id : String) (n : Option String),
      (∀ s ∈ db, s.id ≠ id) → approve db id n = none) := by
  constructor
  · intro db id n1 n2 hmem
    rcases hmem with ⟨s, hs, hsid⟩
    obtain ⟨db1, hdb1⟩ := updateFirst_isSome (fun r => r.id == id) (setReview .approved n1)
      db ⟨s, hs, by simp [hsid]⟩
    obtain ⟨db2, hdb2⟩ := updateFirst_isSome (fun r => r.id == id) (setReview .approved n2)
      db ⟨s, hs, by simp [hsid]⟩
    have hcomp := transition_comp .approved .approved id n1 n2 db db1 hdb1
    refine ⟨db1, db2, hdb1, ?_, ?_⟩
    · show transition .approved db1 id n2 = some db2
      rw [hcomp]
      exact hdb2
    · rcases updateFirst_spec _ _ db db2 hdb2 with ⟨i, x, hget, hpx, hset, hget2, hother, hlen⟩
      exact ⟨i, x, hget, by simpa using hpx, hget2, hset, hlen⟩
  · intro db id n hne
    apply updateFirst_none
    intro x hx
    exact beq_eq_false_iff_ne.mpr (hne x hx)

/-- Witness for `claim6_idempotent`: double approval of a previously
REJECTED submission succeeds and overwrites, and approving an unknown
id 404s. -/
theorem claim6_idempotent_witness :
    (∃ db1 db2,
      approve [⟨"x", "Al", "2020", [], 5, none, [], "t", .rejected, some "bad"⟩] "x"
        (some "n1") = some db1 ∧
      approve db1 "x" (some "n2") = some db2 ∧
      ∃ i s,
        ([(⟨"x", "Al", "2020", [], 5, none, [], "t", .rejected, some "bad"⟩ : Submission)]).get? i =
          some s ∧ s.id = "x" ∧
        db2.get? i = some { s with status := .approved, adminNote := jsOrNull (some "n2") } ∧
        db2 = [(⟨"x", "Al", "2020", [], 5, none, [], "t", .rejected, some "bad"⟩ : Submission)].set i
          { s with status := .approved, adminNote := jsOrNull (some "n2") } ∧
        db2.length =
          [(⟨"x", "Al", "2020", [], 5, none, [], "t", .rejected, some "bad"⟩ : Submission)].length) ∧
    approve [⟨"y", "Al", "2020", [], 5, none, [], "t", .pending, none⟩] "x" (some "n") = none := by
  constructor
  · exact claim6_idempotent.1
      [⟨"x", "Al", "2020", [], 5, none, [], "t", .rejected, some "bad"⟩] "x"
      (some "n1") (some "n2")
      ⟨⟨"x", "Al", "2020", [], 5, none, [], "t", .rejected, some "bad"⟩,
        List.mem_singleton.mpr rfl, rfl⟩
  · apply claim6_idempotent.2
    intro s hs
    rw [List.mem_singleton] at hs
    subst hs
    decide

/-- Claim C10: a successful approve or reject keeps the store's length
and order, rewrites only the `status` and `adminNote` of the first
record carrying the requested id (every other field of it is copied
unchanged by the record update), and leaves every other record
untouched. -/
theorem claim10_frame :
    ∀ (st : Status) (db : List Submission) (id : String) (note : Option String)
      (db2 : List Submission),
      transition st db id note = some db2 →
      approve db id note = transition .approved db id note ∧
      reject db id note = transition .rejected db id note ∧
      db2.length = db.length ∧
      ∃ i s, db.get? i = some s ∧ s.id = id ∧
        db2 = db.set i { s with status := st, adminNote := jsOrNull note } ∧
        db2.get? i = some { s with status := st, adminNote := jsOrNull note } ∧
        ∀ j, j ≠ i → db2.get? j = db.get? j := by
  intro st db id note db2 h
  rcases updateFirst_spec _ _ db db2 h with ⟨i, x, hget, hpx, hset, hget2, hother, hlen⟩
  exact ⟨rfl, rfl, hlen, i, x, hget, by simpa using hpx, hset, hget2, hother⟩

/-- Witness for `claim10_frame`: a concrete reject on a two-record
store. -/
theorem claim10_frame_witness :
    ∃ i s,
      ([⟨"a", "A1", "2020", [], 1, none, [], "t1", .pending, none⟩,
        ⟨"b", "B1", "2021", [], 2, none, [], "t2", .pending, none⟩] :
          List Submission).get? i = some s ∧ s.id = "b" ∧
      ([⟨"a", "A1", "2020", [], 1, none, [], "t1", .pending, none⟩,
        ⟨"b", "B1", "2021", [], 2, none, [], "t2", .rejected, some "no"⟩] :
          List Submission) =
        ([⟨"a", "A1", "2020", [], 1, none, [], "t1", .pending, none⟩,
          ⟨"b", "B1", "2021", [], 2, none, [], "t2", .pending, none⟩] :
            List Submission).set i
          { s with status := .rejected, adminNote := jsOrNull (some "no") } ∧
      ([⟨"a", "A1", "2020", [], 1, none, [], "t1", .pending, none⟩,
        ⟨"b", "B1", "2021", [], 2, none, [], "t2", .rejected, some "no"⟩] :
          List Submission).get? i =
        some { s with status := .rejected, adminNote := jsOrNull (some "no") } ∧
      ∀ j, j ≠ i →
        ([⟨"a", "A1", "2020", [], 1, none, [], "t1", .pending, none⟩,
          ⟨"b", "B1", "2021", [], 2, none, [], "t2", .rejected, some "no"⟩] :
            List Submission).get? j =
        ([⟨"a", "A1", "2020", [], 1, none, [], "t1", .pending, none⟩,
          ⟨"b", "B1", "2021", [], 2, none, [], "t2", .pending, none⟩] :
            List Submission).get? j := by
  have h := claim10_frame .rejected
    [⟨"a", "A1", "2020", [], 1, none, [], "t1", .pending, none⟩,
     ⟨"b", "B1", "2021", [], 2, none, [], "t2", .pending, none⟩] "b" (some "no")
    [⟨"a", "A1", "2020", [], 1, none, [], "t1", .pending, none⟩,
     ⟨"b", "B1", "2021", [], 2, none, [], "t2", .rejected, some "no"⟩] rfl
  exact h.2.2.2

/-! ## Claim C4: archive export -/

/-- When every track's file is truthy (non-empty) and resolves on
disk, the export loop emits exactly one archive entry per track, in
order, under the computed entry name. -/
theorem trackEntriesAux_resolved (fE : String → Bool) :
    ∀ (ts : List TrackRec) (k : Nat),
      (∀ t ∈ ts, ∃ p, t.file = some p ∧ p ≠ "" ∧ fE p = true) →
      (trackEntriesAux fE ts k).length = ts.length ∧
      (∀ j t, ts.get? j = some t → ∃ p, t.file = some p ∧
        (trackEntriesAux fE ts k).get? j = some ⟨entryName t p (k + j), .file p⟩) := by
  intro ts
  induction ts with
  | nil =>
    intro k h
    exact ⟨rfl, fun j t hj => absurd hj (by simp)⟩
  | cons t ts ih =>
    intro k h
    rcases h t (List.mem_cons_self t ts) with ⟨p, hp, hpne, hfe⟩
    have hrest := ih (k + 1) (fun x hx => h x (List.mem_cons_of_mem t hx))
    have hhead : trackEntriesAux fE (t :: ts) k =
        ⟨entryName t p k, .file p⟩ :: trackEntriesAux fE ts (k + 1) := by
      show (match t.file with
            | some q =>
              if q = "" then []
              else if fE q then [⟨entryName t q k, .file q⟩] else []
            | none => []) ++ trackEntriesAux fE ts (k + 1) = _
      simp [hp, hpne, hfe]
    constructor
    · rw [hhead]
      simp [hrest.1]
    · intro j t2 hj
      cases j with
      | zero =>
        have ht2 := Option.some.inj hj
        subst ht2
        exact ⟨p, hp, by rw [hhead]; rfl⟩
      | succ j =>
        rcases hrest.2 j t2 (by simpa using hj) with ⟨p2, hp2, hget⟩
        refine ⟨p2, hp2, ?_⟩
        rw [hhead]
        show (trackEntriesAux fE ts (k + 1)).get? j = _
        have hkj : k + (j + 1) = (k + 1) + j := by omega
        rw [hkj]
        exact hget

/-- The archive entry name written as the source writes it:
`t.originalFileName || ('track-' + (idx+1) + ext)`, i.e. the recorded
name if truthy, the synthesized name otherwise. -/
theorem entryName_truthy (t : TrackRec) (p : String) (i : Nat) :
    entryName t p i =
      (jsOrNull t.originalFileName).getD ("track-" ++ toString (i + 1) ++ extname p) := by
  unfold entryName jsOrNull
  cases t.originalFileName with
  | none => rfl
  | some s =>
    by_cases hs : s = ""
    · simp [hs]
    · simp [hs]

/-- Formalization of claim C4 as stated (its entry-count clause): a
stored submission with an existing directory, every track's `file`
present and resolvable on disk, and a present resolvable cover,
exports an archive of exactly N + 2 entries. -/
def claim4Pred : Prop :=
  ∀ (db : List Submission) (dE fE : String → Bool) (id : String)
    (sub : Submission) (c : String),
    db.find? (fun s => s.id == id) = some sub →
    dE sub.id = true →
    (∀ t ∈ sub.tracks, ∃ p, t.file = some p ∧ fE p = true) →
    sub.cover = some c →
    fE c = true →
    ∀ nm entries, exportSub db dE fE id = .archive nm entries →
      entries.length = sub.tracks.length + 2

/-- Counterexample to claim C4 as stated. The JS truthiness guards
`if (t.file)` and `if (sub.cover)` skip the empty string, not only
`null`: a track whose recorded `file` is `""` (which resolves on
disk — `existsSync(join(UPLOADS_DIR, ''))` is the uploads directory
itself) is silently dropped, so the archive has N + 1 entries, not
N + 2; a cover recorded as `""` is likewise dropped; and a track
whose recorded `originalFileName` is `""` is archived under the
synthesized `track-1.mp3`, not under its recorded name. -/
theorem claim4_counterexample :
    ¬ claim4Pred ∧
    (archiveEntries (fun _ => true)
      ⟨"y", "B", "2020", [], 0, some "", [], "t", .pending, none⟩).length = 1 ∧
    trackEntriesAux (fun _ => true)
      [⟨some "A", none, none, some "a.mp3", some "x/a.mp3", some ""⟩] 0 =
      [⟨"track-1.mp3", .file "x/a.mp3"⟩] := by
  refine ⟨?_, rfl, rfl⟩
  intro h
  have htr : ∀ t ∈ [(⟨some "A", none, none, none, some "", none⟩ : TrackRec)],
      ∃ p, t.file = some p ∧ (fun _ => true : String → Bool) p = true := by
    intro t ht
    rw [List.mem_singleton] at ht
    subst ht
    exact ⟨"", rfl, rfl⟩
  have h1 := h
    [⟨"x", "Al", "2020", [], 1, some "x/c.png",
      [⟨some "A", none, none, none, some "", none⟩], "t", .pending, none⟩]
    (fun _ => true) (fun _ => true) "x"
    ⟨"x", "Al", "2020", [], 1, some "x/c.png",
      [⟨some "A", none, none, none, some "", none⟩], "t", .pending, none⟩
    "x/c.png" rfl rfl htr rfl rfl
    (zipName ⟨"x", "Al", "2020", [], 1, some "x/c.png",
      [⟨some "A", none, none, none, some "", none⟩], "t", .pending, none⟩)
    (archiveEntries (fun _ => true)
      ⟨"x", "Al", "2020", [], 1, some "x/c.png",
        [⟨some "A", none, none, none, some "", none⟩], "t", .pending, none⟩)
    rfl
  exact absurd h1 (by decide)

/-- Claim C4 (amended): for a stored submission whose directory
exists, whose N tracks all carry a non-empty recorded `file` that
resolves on disk, and whose cover is a non-empty path that resolves,
the export produces an archive of exactly N + 2 entries: the metadata
document first (deserializing to the stored record), the cover under
its base filename, then one entry per track named by its recorded
original filename when that is a non-empty string and by
`track-<position><extension>` otherwise (the `||` fallback treats an
empty recorded name like a missing one). -/
theorem claim4_export :
    ∀ (db : List Submission) (dE fE : String → Bool) (id : String)
      (sub : Submission) (c : String),
      db.find? (fun s => s.id == id) = some sub →
      dE sub.id = true →
      (∀ t ∈ sub.tracks, ∃ p, t.file = some p ∧ p ≠ "" ∧ fE p = true) →
      sub.cover = some c →
      c ≠ "" →
      fE c = true →
      ∃ entries,
        exportSub db dE fE id = .archive (zipName sub) entries ∧
        entries.length = sub.tracks.length + 2 ∧
        entries.get? 0 = some ⟨"metadata.json", .data (subToJson sub)⟩ ∧
        subOfJson (subToJson sub) = some sub ∧
        entries.get? 1 = some ⟨basename c, .file c⟩ ∧
        (∀ i t, sub.tracks.get? i = some t →
          ∃ p, t.file = some p ∧
            entries.get? (i + 2) =
              some ⟨(jsOrNull t.originalFileName).getD
                ("track-" ++ toString (i + 1) ++ extname p), .file p⟩) := by
  intro db dE fE id sub c hfind hdir htracks hcover hcne hfec
  have hae : archiveEntries fE sub =
      ⟨"metadata.json", .data (subToJson sub)⟩ :: ⟨basename c, .file c⟩ ::
        trackEntriesAux fE sub.tracks 0 := by
    show (⟨"metadata.json", .data (subToJson sub)⟩ : ArchiveEntry) ::
      ((match sub.cover with
        | some c2 =>
          if c2 = "" then []
          else if fE c2 then [⟨basename c2, .file c2⟩] else []
        | none => []) ++ trackEntriesAux fE sub.tracks 0) = _
    simp [hcover, hcne, hfec]
  refine ⟨archiveEntries fE sub, ?_, ?_, ?_, subOfJson_enc sub, ?_, ?_⟩
  · simp [exportSub, hfind, hdir]
  · rw [hae]
    simp [List.length_cons, (trackEntriesAux_resolved fE sub.tracks 0 htracks).1]
  · rw [hae]
    rfl
  · rw [hae]
    rfl
  · intro i t hit
    rcases (trackEntriesAux_resolved fE sub.tracks 0 htracks).2 i t hit with ⟨p, hp, hget⟩
    refine ⟨p, hp, ?_⟩
    rw [hae]
    show (trackEntriesAux fE sub.tracks 0).get? i = _
    rw [hget, Nat.zero_add, entryName_truthy]

/-- Witness for `claim4_export`: a one-track submission with its
cover and audio file present on disk under non-empty paths. -/
theorem claim4_export_witness :
    ∃ entries,
      exportSub
        [⟨"x", "Al", "2020", [], 1, some "x/c.png",
          [⟨some "A", none, none, some "a.mp3", some "x/a.mp3", some "a.mp3"⟩],
          "t", .pending, none⟩]
        (fun _ => true) (fun _ => true) "x" =
        .archive
          (zipName ⟨"x", "Al", "2020", [], 1, some "x/c.png",
            [⟨some "A", none, none, some "a.mp3", some "x/a.mp3", some "a.mp3"⟩],
            "t", .pending, none⟩) entries ∧
      entries.length = 3 := by
  rcases claim4_export
    [⟨"x", "Al", "2020", [], 1, some "x/c.png",
      [⟨some "A", none, none, some "a.mp3", some "x/a.mp3", some "a.mp3"⟩],
      "t", .pending, none⟩]
    (fun _ => true) (fun _ => true) "x"
    ⟨"x", "Al", "2020", [], 1, some "x/c.png",
      [⟨some "A", none, none, some "a.mp3", some "x/a.mp3", some "a.mp3"⟩],
      "t", .pending, none⟩ "x/c.png"
    rfl rfl
    (by
      intro t ht
      rw [List.mem_singleton] at ht
      subst ht
      exact ⟨"x/a.mp3", rfl, by decide, rfl⟩)
    rfl (by decide) rfl with ⟨entries, h1, h2, _⟩
  exact ⟨entries, h1, h2⟩

/-! ## Claim C9: authentication -/

/-- Claim C9: login succeeds (dashboard redirect, session marked
admin) exactly when the submitted password equals the configured
value; a mismatch redirects to the login page with the error flag and
leaves the session unchanged; and every admin read endpoint invoked
without an admin session answers with a redirect to the login page,
never with data or a JSON error. -/
theorem claim9_auth :
    ∀ (env : Option String) (p : String) (sess : Sess),
      (((loginPost env (some p) sess).1 = .redirect "/admin/dashboard" ∧
        (loginPost env (some p) sess).2.isAdmin = true) ↔ p = adminPassOf env) ∧
      (p ≠ adminPassOf env →
        loginPost env (some p) sess = (.redirect "/admin/login?err=1", sess)) ∧
      (∀ (db : List Submission) (id : String) (dE fE : String → Bool),
        sess.isAdmin = false →
          listSubmissionsEP sess db = .redirect "/admin/login" ∧
          getSubmissionEP sess db id = .redirect "/admin/login" ∧
          downloadEP sess db dE fE id = .redirect "/admin/login") := by
  intro env p sess
  refine ⟨?_, ?_, ?_⟩
  · by_cases h : p = adminPassOf env
    · constructor
      · intro _
        exact h
      · intro _
        constructor
        · simp [loginPost, h]
        · simp [loginPost, h]
    · constructor
      · intro hcontra
        have h1 := hcontra.1
        have hres : loginPost env (some p) sess = (.redirect "/admin/login?err=1", sess) := by
          simp [loginPost, h]
        rw [hres] at h1
        exact absurd (Response.redirect.inj h1) (by decide)
      · intro hp
        exact absurd hp h
  · intro hne
    simp [loginPost, hne]
  · intro db id dE fE hA
    refine ⟨?_, ?_, ?_⟩ <;>
      simp [listSubmissionsEP, getSubmissionEP, downloadEP, requireAdmin, hA]

/-- Witness for `claim9_auth`: with the default configuration, a wrong
password is bounced to the error page while the right one marks the
session, and the three admin read endpoints redirect an anonymous
session to the login page. -/
theorem claim9_auth_witness :
    loginPost none (some "nope") ⟨false⟩ = (.redirect "/admin/login?err=1", ⟨false⟩) ∧
    (loginPost none (some "adminpass") ⟨false⟩).2.isAdmin = true ∧
    listSubmissionsEP ⟨false⟩ [] = .redirect "/admin/login" ∧
    getSubmissionEP ⟨false⟩ [] "x" = .redirect "/admin/login" ∧
    downloadEP ⟨false⟩ [] (fun _ => true) (fun _ => true) "x" = .redirect "/admin/login" := by
  have h := claim9_auth none "nope" ⟨false⟩
  have hok := claim9_auth none "adminpass" ⟨false⟩
  have h3 := h.2.2 [] "x" (fun _ => true) (fun _ => true) rfl
  exact ⟨h.2.1 (by decide), ((hok.1).mpr rfl).2, h3.1, h3.2.1, h3.2.2⟩
